import Mathlib

/-!
# Game of Life driver (`main.go`): channel wiring, reporting loop, program entry

A shallow embedding of `main.go`.

* Go `int` values are `Int`; `uint8` values are `Nat` (with the bound stated where it matters).
* A channel is identified by the number `make` gave it; a send-only (`chan<- T`) and a
  receive-only (`<-chan T`) endpoint are two different record types over such a number.
* `gameOfLife` talks to two goroutines (`distributor`, `pgmIo`) whose bodies are not part of
  `main.go`. What they deliver to the loop of `gameOfLife` is an argument of the embedding: the
  list of events in the order in which the loop sees them.
* A list of events without exit signal is a run in which nothing more is delivered after its
  last event: the loop stays blocked in its outer `select` and `gameOfLife` does not return.
* `time.NewTicker` is the Go library ticker: its channel holds at most one tick, and a tick that
  fires while the channel is full is dropped.
* `flag.Parse` is the Go library call on the default flag set: it either stores the flag
  values and returns, or (bad value, unknown flag, `-help`) ends the process. Which of the two
  happens is an argument of the embedding of `main`.
* `startControlServer`, `getKeyboardCommand` and `StopControlServer` are calls whose bodies are
  not in `main.go`; they are recorded as steps that return.
-/

namespace GoL

/-! ## Data model -/

/-- The record `golParams`: how to run the Game of Life and which image to load. -/
structure golParams where
  turns : Int
  threads : Int
  imageWidth : Int
  imageHeight : Int
deriving DecidableEq, Repr

/-- The type `ioCommand`, declared `uint8` in the source. -/
abbrev ioCommand := Nat

/-- Range of the underlying type `uint8` of `ioCommand`. -/
def uint8Size : Nat := 256

/-- First constant of the `iota` block: `ioOutput ioCommand = iota`. -/
def ioOutput : ioCommand := 0

/-- Second constant of the `iota` block. -/
def ioInput : ioCommand := ioOutput + 1

/-- Third constant of the `iota` block. -/
def ioCheckIdle : ioCommand := ioInput + 1

/-- The constants declared in the `const ( ... )` block of `ioCommand`, in source order. -/
def ioCommandConsts : List ioCommand := [ioOutput, ioInput, ioCheckIdle]

/-- The record `cell`, the return type for the testing framework. -/
structure cell where
  x : Int
  y : Int
deriving DecidableEq, Repr

/-- Number that `make` gave a channel. -/
abbrev ChanId := Nat

/-- What an endpoint allows. -/
inductive Cap where
  | send
  | recv
deriving DecidableEq, Repr

/-- A bidirectional channel `chan T`, as returned by `make`. -/
structure Chan (α : Type) where
  id : ChanId
deriving DecidableEq, Repr

/-- A send-only endpoint `chan<- T`. -/
structure SendChan (α : Type) where
  id : ChanId
deriving DecidableEq, Repr

/-- A receive-only endpoint `<-chan T`. -/
structure RecvChan (α : Type) where
  id : ChanId
deriving DecidableEq, Repr

/-- Assignment of a `chan T` to a field of type `chan<- T`. -/
def Chan.toSend {α : Type} (c : Chan α) : SendChan α := ⟨c.id⟩

/-- Assignment of a `chan T` to a field of type `<-chan T`. -/
def Chan.toRecv {α : Type} (c : Chan α) : RecvChan α := ⟨c.id⟩

/-- Operations a `chan<- T` endpoint allows. -/
def SendChan.caps {α : Type} (_ : SendChan α) : List Cap := [Cap.send]

/-- Operations a `<-chan T` endpoint allows. -/
def RecvChan.caps {α : Type} (_ : RecvChan α) : List Cap := [Cap.recv]

/-- Operations a `chan T` allows. -/
def Chan.caps {α : Type} (_ : Chan α) : List Cap := [Cap.send, Cap.recv]

/-- The element type `uint8` of the value channels. -/
abbrev uint8 := Nat

/-- The element type `rune` of the key channel. -/
abbrev rune := Int

/-- The record `distributorToIo`: chans the distributor uses to talk to the io goroutine. -/
structure distributorToIo where
  command : SendChan ioCommand
  idle : RecvChan Bool
  filename : SendChan String
  inputVal : RecvChan uint8
  outputVal : SendChan uint8
deriving DecidableEq, Repr

/-- The record `ioToDistributor`: chans the io goroutine uses to talk to the distributor. -/
structure ioToDistributor where
  command : RecvChan ioCommand
  idle : SendChan Bool
  filename : RecvChan String
  inputVal : SendChan uint8
  outputVal : RecvChan uint8
deriving DecidableEq, Repr

/-- The record `distributorChans`: all chans the distributor goroutine uses. -/
structure distributorChans where
  io : distributorToIo
  key : RecvChan rune
  exit : SendChan Bool
deriving DecidableEq, Repr

/-- The record `ioChans`: all chans the io goroutine uses. -/
structure ioChans where
  distributor : ioToDistributor
deriving DecidableEq, Repr

/-! ## `gameOfLife`: channel set-up -/

/-- What `gameOfLife` has built when it reaches its two `go` statements. -/
structure Wiring where
  dChans : distributorChans
  ioChans : ioChans
  exitChan : Chan Bool
  aliveCells : Chan (List cell)
deriving DecidableEq, Repr

/-- Lines 75 to 103 of `gameOfLife`: seven `make` calls, numbered from `fresh` on in source
order, and the assignments into `dChans` and `ioChans`. -/
def wire (keyChan : RecvChan rune) (fresh : ChanId) : Wiring :=
  let ioCommand : Chan ioCommand := ⟨fresh⟩
  let ioIdle : Chan Bool := ⟨fresh + 1⟩
  let ioFilename : Chan String := ⟨fresh + 2⟩
  let inputVal : Chan uint8 := ⟨fresh + 3⟩
  let outputVal : Chan uint8 := ⟨fresh + 4⟩
  let exitChan : Chan Bool := ⟨fresh + 5⟩
  let aliveCells : Chan (List cell) := ⟨fresh + 6⟩
  { dChans :=
      { io :=
          { command := ioCommand.toSend
            idle := ioIdle.toRecv
            filename := ioFilename.toSend
            inputVal := inputVal.toRecv
            outputVal := outputVal.toSend }
        key := keyChan
        exit := exitChan.toSend }
    ioChans :=
      { distributor :=
          { command := ioCommand.toRecv
            idle := ioIdle.toSend
            filename := ioFilename.toRecv
            inputVal := inputVal.toSend
            outputVal := outputVal.toRecv } }
    exitChan := exitChan
    aliveCells := aliveCells }

/-! ## `gameOfLife`: the reporting loop -/

/-- What the loop of `gameOfLife` can be handed, in the order in which it happens. -/
inductive Event where
  /-- A value received from `aliveCells`. -/
  | alive (cs : List cell)
  /-- The ticker fires: the runtime puts a tick into `ticker.C` unless one is already there. -/
  | tick
  /-- A value received from `exitChan`. -/
  | exit
deriving DecidableEq, Repr

/-- Whether the event is an alive-cell update. -/
def Event.isAlive : Event → Bool
  | Event.alive _ => true
  | _ => false

/-- Whether the event is a tick. -/
def Event.isTick : Event → Bool
  | Event.tick => true
  | _ => false

/-- Whether the event is the exit signal. -/
def Event.isExit : Event → Bool
  | Event.exit => true
  | _ => false

/-- State of the loop: the variable `alive` and whether `ticker.C` holds a tick. -/
structure LoopState where
  alive : List cell
  tickBuffered : Bool
deriving DecidableEq, Repr

/-- State on entry to the loop: `var alive []cell` is nil and the new ticker has not fired. -/
def LoopState.init : LoopState := { alive := [], tickBuffered := false }

/-- The reporting interval `2 * time.Second`, in milliseconds. -/
def reportInterval : Nat := 2000

/-- One event other than exit. On an update, `alive` is overwritten and the inner `select`
prints `len(alive)` when a tick can be taken from `ticker.C`, and does nothing otherwise.
The second component is the number printed, if any. -/
def step (s : LoopState) : Event → LoopState × Option Nat
  | Event.alive cs =>
      if s.tickBuffered then ({ alive := cs, tickBuffered := false }, some cs.length)
      else ({ alive := cs, tickBuffered := s.tickBuffered }, none)
  | Event.tick => ({ alive := s.alive, tickBuffered := true }, none)
  | Event.exit => (s, none)

/-- Per event handled by the loop, the number it made the loop print (if any). The list stops
at the first exit signal: the loop has returned and handles nothing after it. -/
def outputs : LoopState → List Event → List (Option Nat)
  | _, [] => []
  | _, Event.exit :: _ => []
  | s, e :: es => (step s e).2 :: outputs (step s e).1 es

/-- Value returned by the loop: `alive` at the first exit signal; `none` when no exit signal
arrives, in which case the loop stays blocked in its `select` and never returns. -/
def loopResult : LoopState → List Event → Option (List cell)
  | _, [] => none
  | s, Event.exit :: _ => some s.alive
  | s, e :: es => loopResult (step s e).1 es

/-- The numbers printed after "Alive cells:", in order. -/
def printed (s : LoopState) (es : List Event) : List Nat :=
  (outputs s es).reduceOption

/-- Events that reach the loop: those before the first exit signal. -/
def handled (es : List Event) : List Event :=
  es.takeWhile (fun e => !e.isExit)

/-- Number of ticks fired while the loop runs. -/
def ticksFired (es : List Event) : Nat :=
  (handled es).countP Event.isTick

/-! ## Effects of `gameOfLife` and `main` -/

/-- Observable steps of the program, in program order. -/
inductive Action where
  | flagParseExits
  | startControlServer (p : golParams)
  | goGetKeyboardCommand (key : Chan rune)
  | gameOfLifeCalled (p : golParams) (keyChan : RecvChan rune)
  | goDistributor (p : golParams) (d : distributorChans) (aliveCells : Chan (List cell))
  | goPgmIo (p : golParams) (i : ioChans)
  | newTicker (ms : Nat)
  | println (n : Nat)
  | tickerStop
  | gameOfLifeReturned (alive : List cell)
  | stopControlServer
deriving DecidableEq, Repr

/-- Outcome of a call: what it did, and the value it returned if it returned. -/
structure Run where
  effects : List Action
  result : Option (List cell)
deriving DecidableEq, Repr

/-- The function `gameOfLife`. `fresh` is the number the next `make` hands out and `events` is
what the two goroutines and the ticker deliver to the loop. -/
def gameOfLife (p : golParams) (keyChan : RecvChan rune) (fresh : ChanId)
    (events : List Event) : Run :=
  let w := wire keyChan fresh
  let res := loopResult LoopState.init events
  { effects :=
      [Action.goDistributor p w.dChans w.aliveCells, Action.goPgmIo p w.ioChans,
        Action.newTicker reportInterval]
      ++ (printed LoopState.init events).map Action.println
      ++ (match res with
          | some _ => [Action.tickerStop]
          | none => [])
    result := res }

/-- Values of the flags `-t`, `-w` and `-h` after `flag.Parse`; `none` for a flag that was not
given. -/
structure Flags where
  t : Option Int
  w : Option Int
  h : Option Int
deriving DecidableEq, Repr

/-- The `golParams` that `main` builds: flag values with defaults 8, 512 and 512, and
`turns = 10000000000`. -/
def mainParams (f : Flags) : golParams :=
  { turns := 10000000000
    threads := f.t.getD 8
    imageWidth := f.w.getD 512
    imageHeight := f.h.getD 512 }

/-- What `flag.Parse()` does with the command line: the default flag set ends the process on
a bad value, an unknown flag or `-help`; otherwise the flag values are stored and the call
returns. -/
inductive FlagParse where
  | exits
  | stored (f : Flags)
deriving DecidableEq, Repr

/-- Whether `flag.Parse()` returns to `main`. -/
def FlagParse.returns : FlagParse → Bool
  | FlagParse.exits => false
  | FlagParse.stored _ => true

/-- The function `main`. When `flag.Parse` ends the process nothing after line 151 runs.
Otherwise the channel `key` is number 0, and the calls of `startControlServer` and
`StopControlServer` (bodies not in `main.go`) are recorded as steps. -/
def main (o : FlagParse) (events : List Event) : List Action :=
  match o with
  | FlagParse.exits => [Action.flagParseExits]
  | FlagParse.stored f =>
    let params := mainParams f
    let key : Chan rune := ⟨0⟩
    let g := gameOfLife params key.toRecv 1 events
    [Action.startControlServer params, Action.goGetKeyboardCommand key,
      Action.gameOfLifeCalled params key.toRecv]
    ++ g.effects
    ++ (match g.result with
        | some cs => [Action.gameOfLifeReturned cs, Action.stopControlServer]
        | none => [])

/-! ## Timed traces -/

/-- An event with the time at which it happens, in milliseconds since `time.NewTicker`. -/
abbrev Timed := Nat × Event

/-- Whether the tick events of a trace are the ticks number `k + 1`, `k + 2`, ... of a ticker
of the given period: tick number `m` fires at time `period * m`. -/
def tickTimesFrom (period : Nat) : Nat → List Timed → Bool
  | _, [] => true
  | k, (t, Event.tick) :: rest => (t == period * (k + 1)) && tickTimesFrom period (k + 1) rest
  | k, _ :: rest => tickTimesFrom period k rest

/-- Whether each number of the list is at least `d` above the one before it. -/
def spacedBy (d : Nat) : List Nat → Bool
  | a :: b :: rest => decide (a + d ≤ b) && spacedBy d (b :: rest)
  | _ => true

/-- A trace the program can see: times do not decrease and the ticks are those of the ticker
made by `time.NewTicker(2 * time.Second)`. -/
def wellTimed (tr : List Timed) : Bool :=
  spacedBy 0 (tr.map Prod.fst) && tickTimesFrom reportInterval 0 tr

/-- Times at which the loop prints a report. -/
def reportTimes (s : LoopState) (tr : List Timed) : List Nat :=
  ((tr.map Prod.fst).zip (outputs s (tr.map Prod.snd))).filterMap
    (fun q => q.2.map (fun _ => q.1))

/-- Spec-side: any two consecutive reports are at least one reporting interval apart. -/
def reportsSpaced (tr : List Timed) : Bool :=
  spacedBy reportInterval (reportTimes LoopState.init tr)

/-! ## Spec-side definitions -/

/-- The cell list an event carries, if it is an alive-cell update. -/
def Event.cells? : Event → Option (List cell)
  | Event.alive cs => some cs
  | _ => none

/-- Spec-side: the cell list of the last alive-cell update among the events, and the empty
list when there is none. -/
def lastUpdate (es : List Event) : List cell :=
  (es.filterMap Event.cells?).getLast?.getD []

/-- Spec-side: the configurations the specification calls a configuration error: worker count
above the grid height, or a width or height that is not positive. -/
def specConfigurationError (p : golParams) : Bool :=
  decide (p.threads > p.imageHeight) || decide (p.imageWidth ≤ 0) || decide (p.imageHeight ≤ 0)

/-- Whether a step launches the distributor or the io goroutine. -/
def Action.isLaunch : Action → Bool
  | Action.goDistributor _ _ _ => true
  | Action.goPgmIo _ _ => true
  | _ => false

/-- Whether a step is a call of `startControlServer`. -/
def Action.isStart : Action → Bool
  | Action.startControlServer _ => true
  | _ => false

/-- Whether a step is the call of `StopControlServer`. -/
def Action.isStop : Action → Bool
  | Action.stopControlServer => true
  | _ => false

/-- Whether a step belongs to the body of `gameOfLife`. -/
def Action.inGameOfLife : Action → Bool
  | Action.goDistributor _ _ _ => true
  | Action.goPgmIo _ _ => true
  | Action.newTicker _ => true
  | Action.println _ => true
  | Action.tickerStop => true
  | _ => false

/-! ## Dispatch of rows to workers -/

/-- Modelled from the spec: the number of rows of worker `i` in the dispatch of the
distributor, whose body is not in `main.go`: `H / n` rows, and one more for each of the first
`H % n` workers. -/
def rowsOfWorker (H n i : Nat) : Nat :=
  H / n + (if i < H % n then 1 else 0)

/-- Modelled from the spec: the strips `[start, end)` of the workers `i`, `i + 1`, ...,
`i + k - 1`, laid out one after the other from row `start` on (the distributor body is not in
`main.go`). -/
def stripsFrom (H n : Nat) : Nat → Nat → Nat → List (Nat × Nat)
  | _, 0, _ => []
  | i, k + 1, start =>
      (start, start + rowsOfWorker H n i)
        :: stripsFrom H n (i + 1) k (start + rowsOfWorker H n i)

/-- Modelled from the spec: the dispatch of the distributor (body not in `main.go`) for a grid
of `H` rows and `n` workers: the strips of the workers `0`, ..., `n - 1`, from row 0 on. -/
def dispatch (H n : Nat) : List (Nat × Nat) :=
  stripsFrom H n 0 n 0

/-- Closed form used in the proofs about `dispatch`: the first row of worker `i`. -/
def stripStart (H n i : Nat) : Nat :=
  i * (H / n) + min i (H % n)

/-! ## Theorems -/

/-- C8: the `const` block of `ioCommand` declares exactly three commands, with the documented
codes `ioOutput = 0`, `ioInput = 1`, `ioCheckIdle = 2`; the codes are pairwise distinct and
each fits the underlying type `uint8`. -/
theorem ioCommand_codes :
    ioCommandConsts = [ioOutput, ioInput, ioCheckIdle] ∧ ioCommandConsts.length = 3 ∧
    ioOutput = 0 ∧ ioInput = 1 ∧ ioCheckIdle = 2 ∧
    ioCommandConsts.Nodup ∧ ∀ c ∈ ioCommandConsts, c < uint8Size := by
  decide

/-- C10: in `gameOfLife`, for each of `command`, `idle`, `filename`, `inputVal` and
`outputVal`, the endpoint in `distributorChans.io` and the endpoint in `ioChans.distributor`
are the same channel, the five channels are pairwise different, the distributor side can only
send on `command`, `filename`, `outputVal` and only receive on `idle`, `inputVal`, and the io
side has the opposite capability on each; these records are what the two goroutines get. -/
theorem wiring_complementary (p : golParams) (keyChan : RecvChan rune) (fresh : ChanId)
    (events : List Event) :
    let d := (wire keyChan fresh).dChans
    let i := (wire keyChan fresh).ioChans
    (d.io.command.id = i.distributor.command.id ∧ d.io.idle.id = i.distributor.idle.id ∧
      d.io.filename.id = i.distributor.filename.id ∧
      d.io.inputVal.id = i.distributor.inputVal.id ∧
      d.io.outputVal.id = i.distributor.outputVal.id) ∧
    [d.io.command.id, d.io.idle.id, d.io.filename.id, d.io.inputVal.id,
      d.io.outputVal.id].Nodup ∧
    (d.io.command.caps = [Cap.send] ∧ d.io.filename.caps = [Cap.send] ∧
      d.io.outputVal.caps = [Cap.send] ∧ d.io.idle.caps = [Cap.recv] ∧
      d.io.inputVal.caps = [Cap.recv]) ∧
    (i.distributor.command.caps = [Cap.recv] ∧ i.distributor.filename.caps = [Cap.recv] ∧
      i.distributor.outputVal.caps = [Cap.recv] ∧ i.distributor.idle.caps = [Cap.send] ∧
      i.distributor.inputVal.caps = [Cap.send]) ∧
    (gameOfLife p keyChan fresh events).effects.take 2 =
      [Action.goDistributor p d (wire keyChan fresh).aliveCells, Action.goPgmIo p i] := by
  refine ⟨⟨rfl, rfl, rfl, rfl, rfl⟩, ?_, ⟨rfl, rfl, rfl, rfl, rfl⟩, ⟨rfl, rfl, rfl, rfl, rfl⟩,
    rfl⟩
  simp [wire, Chan.toSend, Chan.toRecv]

/-! ### The reporting loop -/

/-- The loop state after the events of a list without exit signal. -/
theorem loopResult_append_exit (s : LoopState) (pre post : List Event)
    (hpre : ∀ e ∈ pre, e ≠ Event.exit) :
    loopResult s (pre ++ Event.exit :: post)
      = some ((pre.filterMap Event.cells?).getLast?.getD s.alive) := by
  induction pre generalizing s with
  | nil => simp [loopResult]
  | cons e es ih =>
    have hes : ∀ x ∈ es, x ≠ Event.exit := fun x hx => hpre x (List.mem_cons_of_mem _ hx)
    cases e with
    | exit => exact absurd rfl (hpre Event.exit (List.mem_cons_self _ _))
    | tick =>
      show loopResult (step s Event.tick).1 (es ++ Event.exit :: post) = _
      rw [ih _ hes]
      rfl
    | alive cs =>
      show loopResult (step s (Event.alive cs)).1 (es ++ Event.exit :: post) = _
      have hal : (step s (Event.alive cs)).1.alive = cs := by
        simp only [step]; split <;> rfl
      rw [ih _ hes, hal]
      show _ = some ((cs :: es.filterMap Event.cells?).getLast?.getD s.alive)
      rw [List.getLast?_cons]
      rfl

/-- Ticks carry no cell list. -/
theorem filterMap_cells_dropTicks (es : List Event) :
    (es.filter (fun e => !e.isTick)).filterMap Event.cells? = es.filterMap Event.cells? := by
  induction es with
  | nil => rfl
  | cons e es ih =>
    cases e with
    | alive cs =>
      rw [List.filter_cons_of_pos (by rfl)]
      simp only [List.filterMap_cons, Event.cells?, ih]
    | tick =>
      rw [List.filter_cons_of_neg (by simp [Event.isTick])]
      simp only [List.filterMap_cons, Event.cells?, ih]
    | exit =>
      rw [List.filter_cons_of_pos (by rfl)]
      simp only [List.filterMap_cons, Event.cells?, ih]

/-- A list without alive-cell update carries no cell list. -/
theorem filterMap_cells_noAlive (es : List Event) (h : ∀ e ∈ es, e.isAlive = false) :
    es.filterMap Event.cells? = [] := by
  induction es with
  | nil => rfl
  | cons e es ih =>
    have hes : ∀ x ∈ es, x.isAlive = false := fun x hx => h x (List.mem_cons_of_mem _ hx)
    have he := h e (List.mem_cons_self _ _)
    cases e <;> simp_all [Event.isAlive, Event.cells?]

/-- C1: when the first exit signal comes after the events `pre`, `gameOfLife` returns the cell
list of the last alive-cell update in `pre`, as it was received; the empty (nil) list when
`pre` holds no update; and neither the ticks in `pre` nor what follows the exit signal change
the value. -/
theorem gameOfLife_returns_last_update (p : golParams) (keyChan : RecvChan rune)
    (fresh : ChanId) (pre post : List Event) (hpre : ∀ e ∈ pre, e ≠ Event.exit) :
    (gameOfLife p keyChan fresh (pre ++ Event.exit :: post)).result = some (lastUpdate pre) ∧
    ((∀ e ∈ pre, e.isAlive = false) →
      (gameOfLife p keyChan fresh (pre ++ Event.exit :: post)).result = some []) ∧
    (∀ post2 : List Event,
      (gameOfLife p keyChan fresh (pre.filter (fun e => !e.isTick) ++ Event.exit :: post2)).result
        = (gameOfLife p keyChan fresh (pre ++ Event.exit :: post)).result) := by
  have hmain : (gameOfLife p keyChan fresh (pre ++ Event.exit :: post)).result
      = some (lastUpdate pre) := by
    simp only [gameOfLife, lastUpdate]
    rw [loopResult_append_exit _ _ _ hpre]
    rfl
  refine ⟨hmain, ?_, ?_⟩
  · intro hno
    rw [hmain, lastUpdate, filterMap_cells_noAlive pre hno]
    rfl
  · intro post2
    have hf : ∀ e ∈ pre.filter (fun e => !e.isTick), e ≠ Event.exit :=
      fun e he => hpre e (List.mem_of_mem_filter he)
    rw [hmain]
    simp only [gameOfLife, lastUpdate]
    rw [loopResult_append_exit _ _ _ hf, filterMap_cells_dropTicks]
    rfl

/-- Witness of C1: two updates, ticks in between, and events after the exit signal. -/
theorem gameOfLife_returns_last_update_witness :
    (gameOfLife ⟨10, 2, 4, 4⟩ ⟨0⟩ 1
      ([Event.alive [⟨0, 0⟩], Event.tick, Event.alive [⟨2, 1⟩, ⟨1, 3⟩], Event.tick]
        ++ Event.exit :: [Event.alive [⟨3, 3⟩], Event.exit])).result
      = some [⟨2, 1⟩, ⟨1, 3⟩] :=
  (gameOfLife_returns_last_update ⟨10, 2, 4, 4⟩ ⟨0⟩ 1
    [Event.alive [⟨0, 0⟩], Event.tick, Event.alive [⟨2, 1⟩, ⟨1, 3⟩], Event.tick]
    [Event.alive [⟨3, 3⟩], Event.exit] (by decide)).1

/-- Only an alive-cell update makes `step` print, and it prints the length of its list. -/
theorem step_output (s : LoopState) (e : Event) (n : Nat) (h : (step s e).2 = some n) :
    ∃ cs, e = Event.alive cs ∧ n = cs.length := by
  cases e with
  | alive cs =>
    refine ⟨cs, rfl, ?_⟩
    simp only [step] at h
    split at h
    · exact (Option.some.inj h).symm
    · exact absurd h (by simp)
  | tick => exact absurd h (by simp [step])
  | exit => exact absurd h (by simp [step])

/-- A stretch without alive-cell update prints nothing, whatever the state it starts in. -/
theorem outputs_noAlive (s : LoopState) (es : List Event) (h : ∀ e ∈ es, e.isAlive = false) :
    ∀ o ∈ outputs s es, o = none := by
  induction es generalizing s with
  | nil => intro o ho; simp [outputs] at ho
  | cons e es ih =>
    have hes : ∀ x ∈ es, x.isAlive = false := fun x hx => h x (List.mem_cons_of_mem _ hx)
    have he := h e (List.mem_cons_self _ _)
    cases e with
    | alive cs => simp [Event.isAlive] at he
    | exit => intro o ho; simp [outputs] at ho
    | tick =>
      intro o ho
      simp only [outputs, List.mem_cons] at ho
      rcases ho with ho | ho
      · rw [ho]; rfl
      · exact ih _ hes o ho

/-- The outputs over `pre ++ mid` start with the outputs over `pre`. -/
theorem outputs_append (s : LoopState) (pre mid : List Event) :
    ∃ s2 : LoopState, ∃ mid2 : List Event, (mid2 = mid ∨ mid2 = []) ∧
      outputs s (pre ++ mid) = outputs s pre ++ outputs s2 mid2 := by
  induction pre generalizing s with
  | nil => exact ⟨s, mid, Or.inl rfl, by simp [outputs]⟩
  | cons e es ih =>
    cases e with
    | exit => exact ⟨s, [], Or.inr rfl, by simp [outputs]⟩
    | tick =>
      obtain ⟨s2, mid2, hm, h⟩ := ih (step s Event.tick).1
      refine ⟨s2, mid2, hm, ?_⟩
      show (step s Event.tick).2 :: outputs (step s Event.tick).1 (es ++ mid) = _
      rw [h]; rfl
    | alive cs =>
      obtain ⟨s2, mid2, hm, h⟩ := ih (step s (Event.alive cs)).1
      refine ⟨s2, mid2, hm, ?_⟩
      show (step s (Event.alive cs)).2 :: outputs (step s (Event.alive cs)).1 (es ++ mid) = _
      rw [h]; rfl

/-- A position of `outputs` that holds a number is the position of an alive-cell update, and
the number is the length of the list of that update. -/
theorem outputs_getElem (s : LoopState) (es : List Event) (i n : Nat)
    (h : (outputs s es)[i]? = some (some n)) :
    ∃ cs, es[i]? = some (Event.alive cs) ∧ n = cs.length := by
  induction es generalizing s i with
  | nil => simp [outputs] at h
  | cons e es ih =>
    cases e with
    | exit => simp [outputs] at h
    | tick =>
      cases i with
      | zero => simp [outputs, step] at h
      | succ i =>
        simp only [outputs, List.getElem?_cons_succ] at h
        simpa using ih _ i h
    | alive cs =>
      cases i with
      | zero =>
        simp only [outputs, List.getElem?_cons_zero, Option.some.injEq] at h
        obtain ⟨cs2, h1, h2⟩ := step_output s (Event.alive cs) n h
        exact ⟨cs2, by simp [h1], h2⟩
      | succ i =>
        simp only [outputs, List.getElem?_cons_succ] at h
        simpa using ih _ i h

/-- C2: the reporter is silent unless a new grid arrives. Over a stretch `mid` of events
without alive-cell update, after any events `pre`, nothing is printed (the reports up to the
end of `mid` are those up to the end of `pre`), however many ticks `mid` holds; and every
event that makes the loop print is an alive-cell update. -/
theorem reports_only_on_update (s : LoopState) (pre mid : List Event)
    (hmid : ∀ e ∈ mid, e.isAlive = false) :
    printed s (pre ++ mid) = printed s pre ∧
    ∀ i n : Nat, (outputs s (pre ++ mid))[i]? = some (some n) →
      Option.map Event.isAlive (pre ++ mid)[i]? = some true := by
  constructor
  · obtain ⟨s2, mid2, hm, h⟩ := outputs_append s pre mid
    have hnone : ∀ o ∈ outputs s2 mid2, o = none := by
      rcases hm with hm | hm
      · rw [hm]; exact outputs_noAlive s2 mid hmid
      · rw [hm]; intro o ho; simp [outputs] at ho
    have hred : (outputs s2 mid2).reduceOption = [] := by
      rw [List.reduceOption, List.filterMap_eq_nil_iff]
      intro o ho
      rw [hnone o ho]; rfl
    simp only [printed, h, List.reduceOption_append, hred, List.append_nil]
  · intro i n h
    obtain ⟨cs, h1, _⟩ := outputs_getElem s (pre ++ mid) i n h
    rw [h1]; rfl

/-- Witness of C2: a pause of three ticks after an update that was reported. -/
theorem reports_only_on_update_witness :
    printed LoopState.init
        ([Event.tick, Event.alive [⟨1, 1⟩]] ++ [Event.tick, Event.tick, Event.tick])
      = printed LoopState.init [Event.tick, Event.alive [⟨1, 1⟩]] ∧
    printed LoopState.init [Event.tick, Event.alive [⟨1, 1⟩]] = [1] :=
  ⟨(reports_only_on_update LoopState.init [Event.tick, Event.alive [⟨1, 1⟩]]
      [Event.tick, Event.tick, Event.tick] (by decide)).1, by decide⟩

/-- C4: a report states the live-cell count of the grid that triggered it: when the event at
position `i` makes the loop print `n`, that event is an alive-cell update and `n` is the length
of the cell list it carries. -/
theorem report_counts_triggering_update (s : LoopState) (es : List Event) (i n : Nat)
    (h : (outputs s es)[i]? = some (some n)) :
    ∃ cs, es[i]? = some (Event.alive cs) ∧ n = cs.length :=
  outputs_getElem s es i n h

/-- Witness of C4: the second update is reported with its own count, 2. -/
theorem report_counts_triggering_update_witness :
    ∃ cs, [Event.alive [⟨0, 0⟩], Event.tick, Event.alive [⟨2, 1⟩, ⟨1, 3⟩],
        Event.alive [⟨5, 5⟩, ⟨5, 6⟩, ⟨5, 7⟩]][2]? = some (Event.alive cs) ∧ 2 = cs.length :=
  report_counts_triggering_update LoopState.init
    [Event.alive [⟨0, 0⟩], Event.tick, Event.alive [⟨2, 1⟩, ⟨1, 3⟩],
      Event.alive [⟨5, 5⟩, ⟨5, 6⟩, ⟨5, 7⟩]] 2 2 (by decide)

/-- The reports never outnumber the ticks fired, counting a tick still held by `ticker.C`. -/
theorem printed_le_ticks (s : LoopState) (es : List Event) :
    (printed s es).length ≤ ticksFired es + (if s.tickBuffered then 1 else 0) := by
  induction es generalizing s with
  | nil => simp [printed, outputs]
  | cons e es ih =>
    cases e with
    | exit => simp [printed, outputs]
    | tick =>
      have h := ih (step s Event.tick).1
      have h1 : printed s (Event.tick :: es) = printed (step s Event.tick).1 es := by
        simp [printed, outputs, step, List.reduceOption_cons_of_none]
      have h2 : ticksFired (Event.tick :: es) = ticksFired es + 1 := by
        simp [ticksFired, handled, List.takeWhile_cons, Event.isExit, Event.isTick]
      have h3 : (step s Event.tick).1.tickBuffered = true := rfl
      rw [h1, h2]
      rw [h3] at h
      simp only [if_true] at h
      split <;> omega
    | alive cs =>
      have h := ih (step s (Event.alive cs)).1
      have h2 : ticksFired (Event.alive cs :: es) = ticksFired es := by
        simp [ticksFired, handled, List.takeWhile_cons, Event.isExit, Event.isTick]
      have h3 : (step s (Event.alive cs)).1.tickBuffered = false := by
        simp only [step]; split
        · rfl
        · rename_i hb; simpa using hb
      rw [h3] at h
      simp only [Bool.false_eq_true, if_false, Nat.add_zero] at h
      rw [h2]
      by_cases hb : s.tickBuffered = true
      · have h1 : printed s (Event.alive cs :: es)
            = cs.length :: printed (step s (Event.alive cs)).1 es := by
          simp [printed, outputs, step, hb, List.reduceOption_cons_of_some]
        rw [h1, if_pos hb, List.length_cons]
        omega
      · have h1 : printed s (Event.alive cs :: es)
            = printed (step s (Event.alive cs)).1 es := by
          simp [printed, outputs, step, hb, List.reduceOption_cons_of_none]
        rw [h1, if_neg hb]
        omega

/-- Ticks alone print nothing and leave at most one tick in `ticker.C`. -/
theorem printed_ticks_then_update (s : LoopState) (k : Nat) (cs : List cell) :
    (printed s (List.replicate k Event.tick ++ [Event.alive cs])).length ≤ 1 := by
  induction k generalizing s with
  | zero =>
    simp only [List.replicate_zero, List.nil_append, printed, outputs, step]
    split <;> simp [List.reduceOption]
  | succ k ih =>
    have h1 : printed s (List.replicate (k + 1) Event.tick ++ [Event.alive cs])
        = printed (step s Event.tick).1 (List.replicate k Event.tick ++ [Event.alive cs]) := by
      simp [printed, outputs, step, List.replicate_succ, List.reduceOption_cons_of_none]
    rw [h1]
    exact ih _

/-- C9: each reporting interval is reported at most once. At every point of a run of
`gameOfLife` (after the first `k` events, for every `k`) the number of reports printed so far
is at most the number of ticks fired so far; and one alive-cell update prints at most one
report, also after several ticks fired since the update before it. -/
theorem reports_at_most_ticks (events : List Event) (k : Nat) (s : LoopState) (m : Nat)
    (cs : List cell) :
    (printed LoopState.init (events.take k)).length ≤ ticksFired (events.take k) ∧
    (printed s (List.replicate m Event.tick ++ [Event.alive cs])).length ≤ 1 := by
  refine ⟨?_, printed_ticks_then_update s m cs⟩
  have h := printed_le_ticks LoopState.init (events.take k)
  simpa [LoopState.init] using h

/-- With no tick in `ticker.C`, a report at position `j` needs a tick before position `j`. -/
theorem tick_before_report (s : LoopState) (es : List Event) (j b : Nat)
    (hs : s.tickBuffered = false) (hj : (outputs s es)[j]? = some (some b)) :
    ∃ k, k < j ∧ es[k]? = some Event.tick := by
  induction es generalizing s j with
  | nil => simp [outputs] at hj
  | cons e es ih =>
    cases e with
    | exit => simp [outputs] at hj
    | tick =>
      cases j with
      | zero => simp [outputs, step] at hj
      | succ j => exact ⟨0, Nat.succ_pos j, by simp⟩
    | alive cs =>
      cases j with
      | zero => simp [outputs, step, hs] at hj
      | succ j =>
        simp only [outputs, List.getElem?_cons_succ] at hj
        have hs2 : (step s (Event.alive cs)).1.tickBuffered = false := by
          simp [step, hs]
        obtain ⟨k, hk, hek⟩ := ih _ j hs2 hj
        exact ⟨k + 1, Nat.succ_lt_succ hk, by simpa using hek⟩

/-- Counterexample to C3 as stated: the tick of second 2 fires during a pause and stays in
`ticker.C`; an update at 3.9 s is reported, the tick of second 4 fires, and an update at 4.1 s
is reported again, 200 ms after the report before it. -/
theorem reports_spaced_counterexample :
    wellTimed [(2000, Event.tick), (3900, Event.alive [⟨1, 1⟩]), (4000, Event.tick),
        (4100, Event.alive [⟨1, 1⟩])] = true ∧
    reportTimes LoopState.init [(2000, Event.tick), (3900, Event.alive [⟨1, 1⟩]),
        (4000, Event.tick), (4100, Event.alive [⟨1, 1⟩])] = [3900, 4100] ∧
    reportsSpaced [(2000, Event.tick), (3900, Event.alive [⟨1, 1⟩]), (4000, Event.tick),
        (4100, Event.alive [⟨1, 1⟩])] = false := by
  decide

/-- C3, amended: a report takes a tick out of `ticker.C`, so between any two reports of a run
a tick fires: when the events at positions `i < j` both make the loop print, some event at a
position strictly between them is a tick. -/
theorem tick_between_reports (s : LoopState) (es : List Event) (i j a b : Nat) (hij : i < j)
    (hi : (outputs s es)[i]? = some (some a)) (hj : (outputs s es)[j]? = some (some b)) :
    ∃ k, i < k ∧ k < j ∧ es[k]? = some Event.tick := by
  induction es generalizing s i j with
  | nil => simp [outputs] at hi
  | cons e es ih =>
    cases j with
    | zero => exact absurd hij (Nat.not_lt_zero i)
    | succ j =>
      cases e with
      | exit => simp [outputs] at hi
      | tick =>
        cases i with
        | zero => simp [outputs, step] at hi
        | succ i =>
          simp only [outputs, List.getElem?_cons_succ] at hi hj
          obtain ⟨k, h1, h2, h3⟩ := ih _ i j (Nat.lt_of_succ_lt_succ hij) hi hj
          exact ⟨k + 1, Nat.succ_lt_succ h1, Nat.succ_lt_succ h2, by simpa using h3⟩
      | alive cs =>
        simp only [outputs, List.getElem?_cons_succ] at hj
        cases i with
        | zero =>
          have hs2 : (step s (Event.alive cs)).1.tickBuffered = false := by
            simp only [step]; split
            · rfl
            · rename_i hb; simpa using hb
          obtain ⟨k, hk, hek⟩ := tick_before_report _ es j b hs2 hj
          exact ⟨k + 1, Nat.succ_pos k, Nat.succ_lt_succ hk, by simpa using hek⟩
        | succ i =>
          simp only [outputs, List.getElem?_cons_succ] at hi
          obtain ⟨k, h1, h2, h3⟩ := ih _ i j (Nat.lt_of_succ_lt_succ hij) hi hj
          exact ⟨k + 1, Nat.succ_lt_succ h1, Nat.succ_lt_succ h2, by simpa using h3⟩

/-- Witness of C3 amended, on the events of the counterexample: the reports at positions 1 and
3 have the tick of position 2 between them. -/
theorem tick_between_reports_witness :
    ∃ k, 1 < k ∧ k < 3 ∧
      [Event.tick, Event.alive [⟨1, 1⟩], Event.tick, Event.alive [⟨1, 1⟩]][k]?
        = some Event.tick :=
  tick_between_reports LoopState.init
    [Event.tick, Event.alive [⟨1, 1⟩], Event.tick, Event.alive [⟨1, 1⟩]] 1 3 1 1
    (by decide) (by decide) (by decide)

/-! ### Start-up and the control server -/

/-- The loop returns exactly when an exit signal is among the events. -/
theorem loopResult_eq_none_iff (s : LoopState) (es : List Event) :
    loopResult s es = none ↔ Event.exit ∉ es := by
  induction es generalizing s with
  | nil => simp [loopResult]
  | cons e es ih =>
    cases e with
    | exit => simp [loopResult]
    | tick => simp [loopResult, ih]
    | alive cs => simp [loopResult, ih]

/-- Every step of `gameOfLife` is one of its own: it neither starts nor stops the control
server. -/
theorem gameOfLife_effects_own (p : golParams) (keyChan : RecvChan rune) (fresh : ChanId)
    (events : List Event) :
    ∀ a ∈ (gameOfLife p keyChan fresh events).effects, a.inGameOfLife = true := by
  intro a ha
  simp only [gameOfLife, List.mem_append, List.mem_cons, List.mem_map] at ha
  rcases ha with (ha | ha) | ha
  · rcases ha with ha | ha | ha | ha
    · rw [ha]; rfl
    · rw [ha]; rfl
    · rw [ha]; rfl
    · simp at ha
  · obtain ⟨n, _, hn⟩ := ha
    rw [← hn]; rfl
  · cases hres : loopResult LoopState.init events with
    | none => rw [hres] at ha; simp at ha
    | some cs =>
      rw [hres] at ha
      simp only [List.mem_singleton] at ha
      rw [ha]; rfl

/-- Counterexample to C5 as stated: with 8 workers on a grid of height 4, and with a grid of
width 0 and height -3, `gameOfLife` launches the distributor and the io goroutine all the
same, and so does `main` with the flags `-t 8 -w 4 -h 4`. -/
theorem config_error_counterexample :
    specConfigurationError ⟨10000000000, 8, 4, 4⟩ = true ∧
    (gameOfLife ⟨10000000000, 8, 4, 4⟩ ⟨0⟩ 1 []).effects.take 2
      = [Action.goDistributor ⟨10000000000, 8, 4, 4⟩ (wire ⟨0⟩ 1).dChans (wire ⟨0⟩ 1).aliveCells,
          Action.goPgmIo ⟨10000000000, 8, 4, 4⟩ (wire ⟨0⟩ 1).ioChans] ∧
    specConfigurationError ⟨10000000000, 8, 0, -3⟩ = true ∧
    ((gameOfLife ⟨10000000000, 8, 0, -3⟩ ⟨0⟩ 1 []).effects.filter Action.isLaunch).length = 2 ∧
    specConfigurationError (mainParams ⟨some 8, some 4, some 4⟩) = true ∧
    ((main (FlagParse.stored ⟨some 8, some 4, some 4⟩) []).filter Action.isLaunch).length
      = 2 := by
  decide

/-- C5, amended: `gameOfLife` and `main` check nothing about the configuration. For every
`golParams`, `gameOfLife` first launches the distributor and then the io goroutine, both with
the `golParams` it was given; and `main` hands the flag values (defaults 8, 512, 512, and
`turns = 10000000000`) to `startControlServer` and to `gameOfLife` as they are. -/
theorem launches_for_every_config (p : golParams) (keyChan : RecvChan rune) (fresh : ChanId)
    (f : Flags) (events : List Event) :
    (∃ rest, (gameOfLife p keyChan fresh events).effects
      = Action.goDistributor p (wire keyChan fresh).dChans (wire keyChan fresh).aliveCells
        :: Action.goPgmIo p (wire keyChan fresh).ioChans :: rest) ∧
    (∃ rest, main (FlagParse.stored f) events
      = [Action.startControlServer (mainParams f), Action.goGetKeyboardCommand ⟨0⟩,
          Action.gameOfLifeCalled (mainParams f) ⟨0⟩,
          Action.goDistributor (mainParams f) (wire ⟨0⟩ 1).dChans (wire ⟨0⟩ 1).aliveCells,
          Action.goPgmIo (mainParams f) (wire ⟨0⟩ 1).ioChans] ++ rest) := by
  constructor
  · exact ⟨_, rfl⟩
  · exact ⟨_, rfl⟩

/-- Shape of a run of `main` in which `flag.Parse` returns: `startControlServer`, the keyboard
reader, `gameOfLife`, and `StopControlServer` after `gameOfLife` if it returns. -/
theorem main_after_parse (f : Flags) (events : List Event) :
    ∃ body : List Action, (∀ a ∈ body, a.inGameOfLife = true) ∧
      (Event.exit ∈ events → ∃ cs, main (FlagParse.stored f) events
        = [Action.startControlServer (mainParams f), Action.goGetKeyboardCommand ⟨0⟩,
            Action.gameOfLifeCalled (mainParams f) ⟨0⟩] ++ body
          ++ [Action.gameOfLifeReturned cs, Action.stopControlServer]) ∧
      (Event.exit ∉ events → main (FlagParse.stored f) events
        = [Action.startControlServer (mainParams f), Action.goGetKeyboardCommand ⟨0⟩,
            Action.gameOfLifeCalled (mainParams f) ⟨0⟩] ++ body) ∧
      (main (FlagParse.stored f) events).countP Action.isStart = 1 ∧
      (main (FlagParse.stored f) events).countP Action.isStop
        = (if Event.exit ∈ events then 1 else 0) := by
  have hown := gameOfLife_effects_own (mainParams f) (Chan.toRecv ⟨0⟩) 1 events
  have hstart : (gameOfLife (mainParams f) (Chan.toRecv ⟨0⟩) 1 events).effects.countP
      Action.isStart = 0 := by
    rw [List.countP_eq_zero]
    intro a ha
    have := hown a ha
    cases a <;> simp_all [Action.inGameOfLife, Action.isStart]
  have hstop : (gameOfLife (mainParams f) (Chan.toRecv ⟨0⟩) 1 events).effects.countP
      Action.isStop = 0 := by
    rw [List.countP_eq_zero]
    intro a ha
    have := hown a ha
    cases a <;> simp_all [Action.inGameOfLife, Action.isStop]
  have hres : (gameOfLife (mainParams f) (Chan.toRecv ⟨0⟩) 1 events).result
      = loopResult LoopState.init events := rfl
  refine ⟨(gameOfLife (mainParams f) (Chan.toRecv ⟨0⟩) 1 events).effects, hown, ?_, ?_, ?_, ?_⟩
  · intro hex
    cases hr : loopResult LoopState.init events with
    | none => exact absurd hex ((loopResult_eq_none_iff _ _).1 hr)
    | some cs =>
      refine ⟨cs, ?_⟩
      simp only [main, hres, hr]
      rfl
  · intro hex
    have hr := (loopResult_eq_none_iff LoopState.init events).2 hex
    simp only [main, hres, hr, List.append_nil]
    rfl
  · cases hr : loopResult LoopState.init events with
    | none =>
      simp only [main, hres, hr, List.append_nil, List.countP_append, hstart]
      rfl
    | some cs =>
      simp only [main, hres, hr, List.countP_append, hstart]
      rfl
  · cases hr : loopResult LoopState.init events with
    | none =>
      have hex := (loopResult_eq_none_iff LoopState.init events).1 hr
      simp only [main, hres, hr, List.append_nil, List.countP_append, hstop, if_neg hex]
      rfl
    | some cs =>
      have hex : Event.exit ∈ events := by
        by_contra hno
        rw [(loopResult_eq_none_iff LoopState.init events).2 hno] at hr
        exact absurd hr (by simp)
      simp only [main, hres, hr, List.countP_append, hstop, if_pos hex]
      rfl

/-- Counterexample to C7 as stated: neither call happens exactly once in every execution of
`main`. When `flag.Parse` ends the process (a bad flag value, say) `startControlServer` is
called zero times; and in a run with default flags in which no exit signal reaches
`gameOfLife` (one update and one tick, then nothing), `gameOfLife` does not return and
`StopControlServer` is called zero times. -/
theorem stop_once_counterexample :
    (main FlagParse.exits []).countP Action.isStart = 0 ∧
    (main FlagParse.exits []).countP Action.isStop = 0 ∧
    (main (FlagParse.stored ⟨none, none, none⟩)
      [Event.alive [⟨1, 1⟩], Event.tick]).countP Action.isStart = 1 ∧
    (main (FlagParse.stored ⟨none, none, none⟩)
      [Event.alive [⟨1, 1⟩], Event.tick]).countP Action.isStop = 0 ∧
    (gameOfLife (mainParams ⟨none, none, none⟩) ⟨0⟩ 1
      [Event.alive [⟨1, 1⟩], Event.tick]).result = none := by
  decide

/-- C7, amended: in an execution of `main` in which `flag.Parse` ends the process, neither
`startControlServer` nor `StopControlServer` is called. In every other execution
`startControlServer` is called exactly once, first of all, before the keyboard reader is
started and before `gameOfLife` begins; `StopControlServer` is called exactly once, as the
last step, right after `gameOfLife` has returned, when an exit signal reaches `gameOfLife`,
and is not called when none does (`gameOfLife` does not return then). -/
theorem control_server_brackets (o : FlagParse) (events : List Event) :
    (main o events).countP Action.isStart = (if o.returns = true then 1 else 0) ∧
    (main o events).countP Action.isStop
      = (if o.returns = true ∧ Event.exit ∈ events then 1 else 0) ∧
    (o = FlagParse.exits → main o events = [Action.flagParseExits]) ∧
    (∀ f, o = FlagParse.stored f →
      ∃ body : List Action, (∀ a ∈ body, a.inGameOfLife = true) ∧
        (Event.exit ∈ events → ∃ cs, main o events
          = [Action.startControlServer (mainParams f), Action.goGetKeyboardCommand ⟨0⟩,
              Action.gameOfLifeCalled (mainParams f) ⟨0⟩] ++ body
            ++ [Action.gameOfLifeReturned cs, Action.stopControlServer]) ∧
        (Event.exit ∉ events → main o events
          = [Action.startControlServer (mainParams f), Action.goGetKeyboardCommand ⟨0⟩,
              Action.gameOfLifeCalled (mainParams f) ⟨0⟩] ++ body)) := by
  cases o with
  | exits =>
    refine ⟨rfl, ?_, fun _ => rfl, ?_⟩
    · simp [FlagParse.returns, main, Action.isStop]
    · intro f hf
      exact absurd hf (by simp)
  | stored g =>
    obtain ⟨body, hb, h1, h2, h3, h4⟩ := main_after_parse g events
    refine ⟨?_, ?_, ?_, ?_⟩
    · rw [h3]; rfl
    · rw [h4]; simp [FlagParse.returns]
    · intro h
      exact absurd h (by simp)
    · intro f hf
      have hfg : g = f := FlagParse.stored.inj hf
      subst hfg
      exact ⟨body, hb, h1, h2⟩

/-- Witness of C7 amended: a run with the flag `-t 4` in which the exit signal arrives after
one reported update: both calls happen once, `StopControlServer` last. -/
theorem control_server_brackets_witness :
    (main (FlagParse.stored ⟨some 4, none, none⟩)
      [Event.tick, Event.alive [⟨1, 1⟩], Event.exit]).countP Action.isStart = 1 ∧
    (main (FlagParse.stored ⟨some 4, none, none⟩)
      [Event.tick, Event.alive [⟨1, 1⟩], Event.exit]).countP Action.isStop = 1 ∧
    (main (FlagParse.stored ⟨some 4, none, none⟩)
      [Event.tick, Event.alive [⟨1, 1⟩], Event.exit]).getLast? = some Action.stopControlServer ∧
    ∃ body : List Action, (∀ a ∈ body, a.inGameOfLife = true) ∧
      ∃ cs, main (FlagParse.stored ⟨some 4, none, none⟩)
          [Event.tick, Event.alive [⟨1, 1⟩], Event.exit]
        = [Action.startControlServer (mainParams ⟨some 4, none, none⟩),
            Action.goGetKeyboardCommand ⟨0⟩,
            Action.gameOfLifeCalled (mainParams ⟨some 4, none, none⟩) ⟨0⟩] ++ body
          ++ [Action.gameOfLifeReturned cs, Action.stopControlServer] :=
  have h := control_server_brackets (FlagParse.stored ⟨some 4, none, none⟩)
    [Event.tick, Event.alive [⟨1, 1⟩], Event.exit]
  ⟨by decide, by decide, by decide,
    (h.2.2.2 ⟨some 4, none, none⟩ rfl).elim fun body hb =>
      ⟨body, hb.1, hb.2.1 (by decide)⟩⟩

/-! ### Dispatch of rows to workers -/

/-- The strip of worker `i` ends where the strip of worker `i + 1` starts. -/
theorem stripStart_succ (H n i : Nat) :
    stripStart H n (i + 1) = stripStart H n i + rowsOfWorker H n i := by
  simp only [stripStart, rowsOfWorker, Nat.succ_mul]
  split <;> omega

/-- Start rows grow with the worker number. -/
theorem stripStart_mono (H n : Nat) {i j : Nat} (hij : i ≤ j) :
    stripStart H n i ≤ stripStart H n j := by
  induction j with
  | zero =>
    have : i = 0 := Nat.le_zero.1 hij
    rw [this]
  | succ j ih =>
    rcases Nat.lt_or_ge i (j + 1) with h | h
    · have := ih (Nat.le_of_lt_succ h)
      rw [stripStart_succ]
      omega
    · have : i = j + 1 := Nat.le_antisymm hij h
      rw [this]

/-- The strips laid out from the start row of worker `i` are those of the closed form. -/
theorem stripsFrom_getElem (H n i k j : Nat) (hj : j < k) :
    (stripsFrom H n i k (stripStart H n i))[j]?
      = some (stripStart H n (i + j), stripStart H n (i + j + 1)) := by
  induction k generalizing i j with
  | zero => exact absurd hj (Nat.not_lt_zero j)
  | succ k ih =>
    cases j with
    | zero =>
      simp only [stripsFrom, List.getElem?_cons_zero, Nat.add_zero, stripStart_succ]
    | succ j =>
      simp only [stripsFrom, List.getElem?_cons_succ]
      rw [← stripStart_succ, ih (i + 1) j (Nat.lt_of_succ_lt_succ hj)]
      have h1 : i + 1 + j = i + (j + 1) := by omega
      rw [h1]

/-- One strip per worker. -/
theorem stripsFrom_length (H n i k start : Nat) : (stripsFrom H n i k start).length = k := by
  induction k generalizing i start with
  | zero => rfl
  | succ k ih => simp [stripsFrom, ih]

/-- The strip of worker `i` in `dispatch`. -/
theorem dispatch_getElem (H n i : Nat) (hi : i < n) :
    (dispatch H n)[i]? = some (stripStart H n i, stripStart H n (i + 1)) := by
  have h := stripsFrom_getElem H n 0 n i hi
  have h0 : stripStart H n 0 = 0 := by simp [stripStart]
  rw [h0] at h
  simpa [dispatch] using h

/-- The last strip ends at row `H`. -/
theorem stripStart_last (H n : Nat) (hn : 1 ≤ n) : stripStart H n n = H := by
  have hmod : H % n < n := Nat.mod_lt H hn
  have hdiv := Nat.div_add_mod H n
  simp only [stripStart]
  rw [Nat.min_eq_right (Nat.le_of_lt hmod)]
  linarith

/-- Every row below the start of worker `k` lies in the strip of one worker below `k`. -/
theorem row_in_some_strip (H n k r : Nat) (hr : r < stripStart H n k) :
    ∃ i, i < k ∧ stripStart H n i ≤ r ∧ r < stripStart H n (i + 1) := by
  induction k with
  | zero => simp [stripStart] at hr
  | succ k ih =>
    rcases Nat.lt_or_ge r (stripStart H n k) with h | h
    · obtain ⟨i, h1, h2, h3⟩ := ih h
      exact ⟨i, Nat.lt_succ_of_lt h1, h2, h3⟩
    · exact ⟨k, Nat.lt_succ_self k, h, hr⟩

/-- C6: for a grid of `H ≥ 1` rows and `1 ≤ n ≤ H` workers, the dispatch (`H / n` rows per
worker, one more for each of the first `H % n` workers) yields `n` strips `[start, end)` that
partition `[0, H)`: each strip is not empty and has `H / n` or `H / n + 1` rows, each strip
starts where the one before it ends, the first starts at 0, the last ends at `H`, and every
row below `H` lies in exactly one strip. -/
theorem dispatch_partitions (H n : Nat) (hn : 1 ≤ n) (hnH : n ≤ H) :
    (dispatch H n).length = n ∧
    (∀ (i : Nat) (st : Nat × Nat), (dispatch H n)[i]? = some st →
      st.1 < st.2 ∧ st.2 ≤ H ∧
      st.2 - st.1 = (if i < H % n then H / n + 1 else H / n)) ∧
    (∀ (i : Nat) (a b : Nat × Nat),
      (dispatch H n)[i]? = some a → (dispatch H n)[i + 1]? = some b → a.2 = b.1) ∧
    (∃ e, (dispatch H n)[0]? = some (0, e)) ∧
    (∃ b, (dispatch H n)[n - 1]? = some (b, H)) ∧
    (∀ r, r < H → ∃ i, (∃ st : Nat × Nat, (dispatch H n)[i]? = some st ∧ st.1 ≤ r ∧ r < st.2) ∧
      ∀ (j : Nat) (st : Nat × Nat),
        (dispatch H n)[j]? = some st → st.1 ≤ r → r < st.2 → j = i) := by
  have hlen : (dispatch H n).length = n := stripsFrom_length H n 0 n 0
  have hbase : 1 ≤ H / n := (Nat.one_le_div_iff hn).2 hnH
  have hidx : ∀ i st, (dispatch H n)[i]? = some st →
      i < n ∧ st = (stripStart H n i, stripStart H n (i + 1)) := by
    intro i st h
    have hi : i < n := by
      rcases Nat.lt_or_ge i n with hlt | hge
      · exact hlt
      · rw [List.getElem?_eq_none (by omega)] at h
        exact absurd h (by simp)
    rw [dispatch_getElem H n i hi] at h
    exact ⟨hi, (Option.some.inj h).symm⟩
  refine ⟨hlen, ?_, ?_, ?_, ?_, ?_⟩
  · intro i st h
    obtain ⟨hi, hst⟩ := hidx i st h
    rw [hst]
    have hs := stripStart_succ H n i
    have hle := stripStart_mono H n (Nat.succ_le_of_lt hi)
    rw [stripStart_last H n hn] at hle
    simp only [rowsOfWorker] at hs
    refine ⟨?_, hle, ?_⟩
    · show stripStart H n i < stripStart H n (i + 1)
      split at hs <;> omega
    · show stripStart H n (i + 1) - stripStart H n i = _
      split at hs
      · rename_i hlt; rw [if_pos hlt]; omega
      · rename_i hlt; rw [if_neg hlt]; omega
  · intro i a b ha hb
    obtain ⟨_, ha2⟩ := hidx i a ha
    obtain ⟨_, hb2⟩ := hidx (i + 1) b hb
    rw [ha2, hb2]
  · refine ⟨stripStart H n 1, ?_⟩
    have h := dispatch_getElem H n 0 (by omega)
    have h0 : stripStart H n 0 = 0 := by simp [stripStart]
    rw [h0] at h
    exact h
  · refine ⟨stripStart H n (n - 1), ?_⟩
    have h := dispatch_getElem H n (n - 1) (by omega)
    have h1 : n - 1 + 1 = n := by omega
    rw [h1, stripStart_last H n hn] at h
    exact h
  · intro r hr
    rw [← stripStart_last H n hn] at hr
    obtain ⟨i, hi, h1, h2⟩ := row_in_some_strip H n n r hr
    refine ⟨i, ⟨_, dispatch_getElem H n i hi, h1, h2⟩, ?_⟩
    intro j st hj hlo hhi
    obtain ⟨_, hst⟩ := hidx j st hj
    rw [hst] at hlo hhi
    simp only at hlo hhi
    rcases Nat.lt_trichotomy j i with hlt | heq | hgt
    · have hm : stripStart H n (j + 1) ≤ stripStart H n i := stripStart_mono H n hlt
      omega
    · exact heq
    · have hm : stripStart H n (i + 1) ≤ stripStart H n j := stripStart_mono H n hgt
      omega

/-- Witness of C6: 10 rows on 4 workers give the strips of 3, 3, 2 and 2 rows. -/
theorem dispatch_partitions_witness :
    dispatch 10 4 = [(0, 3), (3, 6), (6, 8), (8, 10)] ∧ (dispatch 10 4).length = 4 :=
  ⟨by decide, (dispatch_partitions 10 4 (by decide) (by decide)).1⟩

end GoL
